import Mathlib

/-!
Verification of the transport and validation pipeline of the `extended-sdk`
TypeScript repository (`@rokitgg/extended`): the `HttpTransport` class
(`src/transports/http.ts`), the Zod response schemas, and the `InfoClient`
endpoint methods (`src/clients/info.ts`).

Every definition is a shallow embedding of the corresponding TypeScript
source unless its doc comment says it follows the specification text
(those exist only for comparing the spec's words with the code).
-/

namespace Extended

/-! ### JavaScript string primitives

`String.prototype.replace(pat, rep)` with a plain-string pattern replaces
only the FIRST occurrence of `pat`.  We model strings as `List Char` and
wrap back into `String` at the interface.  The `$`-escape processing JS
performs inside the replacement string is not modelled; no call site of the
repository passes a replacement containing `$`. -/

/-- `startsWithL pat s` is true when `pat` is a prefix of `s`
(character-by-character, as a JS index-0 match). -/
def startsWithL : List Char → List Char → Bool
  | [], _ => true
  | _ :: _, [] => false
  | p :: ps, c :: cs => p == c && startsWithL ps cs

/-- The first match of `pat` inside `s`: `some (pre, post)` means `s`
splits as `pre ++ pat ++ post` at the earliest possible position; `none`
means no occurrence.  This mirrors the index search done by
`String.prototype.replace` with a string pattern. -/
def splitFirst (pat : List Char) : List Char → Option (List Char × List Char)
  | [] => if startsWithL pat [] then some ([], []) else none
  | c :: cs =>
    if startsWithL pat (c :: cs) then some ([], (c :: cs).drop pat.length)
    else (splitFirst pat cs).map (fun q => (c :: q.1, q.2))

/-- Substring test, via the first-match search. -/
def containsSub (pat s : List Char) : Bool := (splitFirst pat s).isSome

/-- ECMA-262 GetSubstitution for a plain-string pattern: expands the
dollar escapes of the replacement text — a doubled dollar to a literal
dollar, dollar-ampersand to the matched text, dollar-backquote (code 96)
to the part of the subject before the match, dollar-quote (code 39) to the
part after it.  A string pattern has no capture groups and no named
captures, so `$n` and `$<` forms (and any other dollar) are literal. -/
def getSubstitution (matched pre post : List Char) : List Char → List Char
  | [] => []
  | c :: rest =>
    if c = '$' then
      match rest with
      | [] => ['$']
      | d :: rest2 =>
        if d = '$' then '$' :: getSubstitution matched pre post rest2
        else if d = '&' then matched ++ getSubstitution matched pre post rest2
        else if d = Char.ofNat 96 then pre ++ getSubstitution matched pre post rest2
        else if d = Char.ofNat 39 then post ++ getSubstitution matched pre post rest2
        else '$' :: getSubstitution matched pre post (d :: rest2)
    else c :: getSubstitution matched pre post rest

/-- JS `s.replace(pat, rep)` with a plain-string `pat`: replaces the first
occurrence only, expanding the replacement's dollar escapes against that
match, and returns `s` unchanged when `pat` does not occur. -/
def jsReplaceFirst (s pat rep : String) : String :=
  match splitFirst pat.toList s.toList with
  | none => s
  | some q => ⟨q.1 ++ getSubstitution pat.toList q.1 q.2 rep.toList ++ q.2⟩

/-- The path-parameter substitution loop of `HttpTransport.request`
(src/transports/http.ts):
`for (const [key, value] of Object.entries(pathParams)) processedPath =
processedPath.replace(braces(key), String(value))`.  Path-parameter values
reach this point already stringified, so the map is `String → String`. -/
def substitutePathParams (path : String) (pathParams : List (String × String)) : String :=
  pathParams.foldl (fun p kv => jsReplaceFirst p ("\x7b" ++ kv.1 ++ "\x7d") kv.2) path

/-- Recursion core of `replaceAllSpec`; `fuel` bounds the number of steps
(any `fuel ≥ s.length` gives the all-occurrences replacement). -/
def replaceAllFuel (pat rep : List Char) : Nat → List Char → List Char
  | 0, s => s
  | _ + 1, [] => []
  | fuel + 1, c :: cs =>
    if pat.length ≠ 0 && startsWithL pat (c :: cs) then
      rep ++ replaceAllFuel pat rep fuel ((c :: cs).drop pat.length)
    else
      c :: replaceAllFuel pat rep fuel cs

/-- Modelled from the spec: "Substitute every `\x7bkey\x7d` occurrence in
`path`" — an all-occurrences replacement, used only to compare the spec's
words with the code's first-occurrence behaviour. -/
def replaceAllSpec (pat rep : List Char) (s : List Char) : List Char :=
  replaceAllFuel pat rep s.length s

/-- Modelled from the spec: substitute every occurrence of each placeholder. -/
def substituteAllSpec (path : String) (pathParams : List (String × String)) : String :=
  pathParams.foldl
    (fun p kv => ⟨replaceAllSpec ("\x7b" ++ kv.1 ++ "\x7d").toList kv.2.toList p.toList⟩) path

/-! ### JSON values and the Zod schema layer

`Json` models an arbitrary parsed JSON value (numbers as exact rationals,
so that `z.number().int()` is a real check).  The `z*` functions mirror the
Zod combinators used by the repository's schemas, in their default mode:
`z.object` accepts any object that provides every required field with the
right shape, and silently strips unknown keys; `safeParse` reports failure
as a value (here `Bool`) instead of raising. -/

/-- A parsed JSON value. -/
inductive Json where
  | null : Json
  | bool (b : Bool) : Json
  | num (q : Rat) : Json
  | str (s : String) : Json
  | arr (elems : List Json) : Json
  | obj (fields : List (String × Json)) : Json

/-- First binding of key `k` in an object's field list (JS object keys are
unique, and Zod reads properties by name). -/
def fieldLookup (fields : List (String × Json)) (k : String) : Option Json :=
  (fields.find? (fun kv => kv.1 == k)).map (fun kv => kv.2)

/-- Property access `v[k]` on a JSON value: `none` when `v` is not an
object or lacks the key. -/
def Json.get : Json → String → Option Json
  | .obj fields, k => fieldLookup fields k
  | _, _ => none

/-- `z.string()`. -/
def zString : Json → Bool
  | .str _ => true
  | _ => false

/-- `z.number().int()`: a JSON number that is an integer. -/
def zNumberInt : Json → Bool
  | .num q => q.den == 1
  | _ => false

/-- `z.literal(s)` for a string literal. -/
def zLiteral (s : String) : Json → Bool
  | .str t => t == s
  | _ => false

/-- `z.enum([...])`. -/
def zEnum (options : List String) : Json → Bool
  | .str t => options.contains t
  | _ => false

/-- `z.array(elem)`. -/
def zArray (elem : Json → Bool) : Json → Bool
  | .arr l => l.all elem
  | _ => false

/-- A required field of a `z.object`: present and of the right shape. -/
def zField (fields : List (String × Json)) (k : String) (p : Json → Bool) : Bool :=
  match fieldLookup fields k with
  | some j => p j
  | none => false

/-- An `.optional()` field of a `z.object`: absent, or of the right shape. -/
def zFieldOpt (fields : List (String × Json)) (k : String) (p : Json → Bool) : Bool :=
  match fieldLookup fields k with
  | some j => p j
  | none => true

/-- `GeneralErrorCodeSchema` (src/schemas/errors.ts): `z.enum` over the six
general HTTP error codes. -/
def generalErrorCodes : List String :=
  ["BAD_REQUEST", "UNAUTHORIZED", "FORBIDDEN", "NOT_FOUND",
   "UNPROCESSABLE_ENTITY", "INTERNAL_SERVER_ERROR"]

/-- `CandleSchema` (src/schemas/info/market/candles.ts): object with string
fields `o`,`c`,`h`,`l`, optional string `v`, and integer number `T`. -/
def candleAccepts : Json → Bool
  | .obj fs =>
    zField fs "o" zString && zField fs "c" zString && zField fs "h" zString &&
    zField fs "l" zString && zFieldOpt fs "v" zString && zField fs "T" zNumberInt
  | _ => false

/-- `GetCandlesHistorySuccessSchema`: `status: z.literal("OK")`,
`data: z.array(CandleSchema)`. -/
def candlesSuccessAccepts : Json → Bool
  | .obj fs =>
    zField fs "status" (zLiteral "OK") && zField fs "data" (zArray candleAccepts)
  | _ => false

/-- The error-envelope object `z.object(\x7b code, message \x7d)` nested in
`GetCandlesHistoryErrorSchema`. -/
def candlesErrorDetailAccepts : Json → Bool
  | .obj fs =>
    zField fs "code" (zEnum generalErrorCodes) && zField fs "message" zString
  | _ => false

/-- `GetCandlesHistoryErrorSchema`: `status: z.literal("ERROR")` plus the
error-detail object. -/
def candlesErrorAccepts : Json → Bool
  | .obj fs =>
    zField fs "status" (zLiteral "ERROR") && zField fs "error" candlesErrorDetailAccepts
  | _ => false

/-- `GetCandlesHistoryResponseSchema`: `z.discriminatedUnion("status", [...])` —
dispatch on the literal value of the `status` property, rejecting any value
whose `status` is not one of the two literals. -/
def candlesResponseAccepts (v : Json) : Bool :=
  match v.get "status" with
  | some (.str s) =>
    if s == "OK" then candlesSuccessAccepts v
    else if s == "ERROR" then candlesErrorAccepts v
    else false
  | _ => false

/-! Claim-side comparison definitions for the validation contract.  The
claim says extra fields cause rejection, which is Zod's `.strict()` mode,
not the mode the repository uses; these definitions exist to state that
contract and compare it with the code's validator. -/

/-- Every key of the object is among the allowed ones. -/
def keysWithin (fs : List (String × Json)) (allowed : List String) : Bool :=
  fs.all (fun kv => allowed.contains kv.1)

/-- Modelled from the spec: a candle object matched exactly (no extra keys). -/
def candleExact (v : Json) : Bool :=
  match v with
  | .obj fs => candleAccepts v && keysWithin fs ["o", "c", "h", "l", "v", "T"]
  | _ => false

/-- Modelled from the spec: the `OK` envelope matched exactly, extra fields
rejected at every level. -/
def candlesSuccessExact (v : Json) : Bool :=
  match v with
  | .obj fs =>
    zField fs "status" (zLiteral "OK") && zField fs "data" (zArray candleExact) &&
    keysWithin fs ["status", "data"]
  | _ => false

/-- Modelled from the spec: the `ERROR` envelope matched exactly. -/
def candlesErrorExact (v : Json) : Bool :=
  match v with
  | .obj fs =>
    zField fs "status" (zLiteral "ERROR") &&
    zField fs "error" (fun e =>
      match e with
      | .obj efs =>
        zField efs "code" (zEnum generalErrorCodes) && zField efs "message" zString &&
        keysWithin efs ["code", "message"]
      | _ => false) &&
    keysWithin fs ["status", "error"]
  | _ => false

/-- Modelled from the spec: "it matches one of the two shapes exactly
(extra/missing required fields reject)". -/
def candlesResponseExact (v : Json) : Bool :=
  candlesSuccessExact v || candlesErrorExact v

/-! Spec-level shape predicates, used to characterize what the code's
validator actually accepts. -/

/-- The candle record shape: required string fields `o`,`c`,`h`,`l`, an
optional string `v`, an integer `T` — with no condition on other keys. -/
def IsCandleShape (c : Json) : Prop :=
  (∃ s, c.get "o" = some (.str s)) ∧ (∃ s, c.get "c" = some (.str s)) ∧
  (∃ s, c.get "h" = some (.str s)) ∧ (∃ s, c.get "l" = some (.str s)) ∧
  (∀ j, c.get "v" = some j → ∃ s, j = .str s) ∧
  (∃ q, c.get "T" = some (.num q) ∧ q.den = 1)

/-- The success envelope: `status` is the string `"OK"` and `data` is an
array of candle-shaped values — with no condition on other keys. -/
def CandlesOkShape (v : Json) : Prop :=
  v.get "status" = some (.str "OK") ∧
  ∃ l, v.get "data" = some (.arr l) ∧ ∀ c ∈ l, IsCandleShape c

/-- The error envelope: `status` is `"ERROR"` and `error` carries a code
from the endpoint's code union plus a message string. -/
def CandlesErrorShape (v : Json) : Prop :=
  v.get "status" = some (.str "ERROR") ∧
  ∃ e, v.get "error" = some e ∧
    (∃ code, e.get "code" = some (.str code) ∧ code ∈ generalErrorCodes) ∧
    (∃ m, e.get "message" = some (.str m))

/-! The market-stats endpoint schema
(`GetMarketStatsResponseSchema`, src/unnamed/part_001), the other response
schema the envelope contract is checked against. -/

/-- `MarketAssetAccountErrorCodeSchema` (src/schemas/errors.ts). -/
def marketAssetAccountErrorCodes : List String :=
  ["AssetNotFound", "MarketNotFound", "MarketDisabled", "MarketGroupNotFound",
   "AccountNotFound", "NotSupportedInterval", "UnhandledError", "ClientNotFound",
   "ActionNotAllowed", "MaintenanceMode", "PostOnlyMode", "ReduceOnlyMode",
   "InvalidPercentage", "MarketReduceOnly"]

/-- `MarketErrorCodeSchema = z.union([GeneralErrorCodeSchema,
MarketAssetAccountErrorCodeSchema])`: a union accepts when any member
does. -/
def marketErrorCodeAccepts (j : Json) : Bool :=
  zEnum generalErrorCodes j || zEnum marketAssetAccountErrorCodes j

/-- `z.number().int().positive()`: an integer JSON number greater than 0. -/
def zNumberIntPositive : Json → Bool
  | .num q => q.den == 1 && decide (0 < q)
  | _ => false

/-- `z.number().int().min(1).max(4)` — the ADL `level` field. -/
def zLevelNumber : Json → Bool
  | .num q => q.den == 1 && decide ((1 : Rat) ≤ q) && decide (q ≤ (4 : Rat))
  | _ => false

/-- `DeleverageLevel`: object with the bounded integer `level` and string
`rankingLowerBound`. -/
def deleverageLevelAccepts : Json → Bool
  | .obj fs => zField fs "level" zLevelNumber && zField fs "rankingLowerBound" zString
  | _ => false

/-- `DeleverageLevelsSchema`: arrays of deleverage levels for short and
long positions. -/
def deleverageLevelsAccepts : Json → Bool
  | .obj fs =>
    zField fs "shortPositions" (zArray deleverageLevelAccepts) &&
    zField fs "longPositions" (zArray deleverageLevelAccepts)
  | _ => false

/-- `MarketStatsWithDeleverageSchema = MarketStatsSchema.extend(...)`: the
fifteen market-stats fields with `dailyPriceChange` made required by the
extension, plus the required `deleverageLevels` object. -/
def marketStatsAccepts : Json → Bool
  | .obj fs =>
    zField fs "dailyVolume" zString && zField fs "dailyVolumeBase" zString &&
    zField fs "dailyPriceChange" zString &&
    zField fs "dailyPriceChangePercentage" zString &&
    zField fs "dailyLow" zString && zField fs "dailyHigh" zString &&
    zField fs "lastPrice" zString && zField fs "askPrice" zString &&
    zField fs "bidPrice" zString && zField fs "markPrice" zString &&
    zField fs "indexPrice" zString && zField fs "fundingRate" zString &&
    zField fs "nextFundingRate" zNumberIntPositive &&
    zField fs "openInterest" zString && zField fs "openInterestBase" zString &&
    zField fs "deleverageLevels" deleverageLevelsAccepts
  | _ => false

/-- `GetMarketStatsSuccessSchema`: `status: z.literal("OK")`,
`data: MarketStatsWithDeleverageSchema`. -/
def statsSuccessAccepts : Json → Bool
  | .obj fs =>
    zField fs "status" (zLiteral "OK") && zField fs "data" marketStatsAccepts
  | _ => false

/-- The nested error object of `GetMarketStatsErrorSchema`: a code from the
market error-code union plus a message string. -/
def statsErrorDetailAccepts : Json → Bool
  | .obj fs =>
    zField fs "code" marketErrorCodeAccepts && zField fs "message" zString
  | _ => false

/-- `GetMarketStatsErrorSchema`: `status: z.literal("ERROR")` plus the
error-detail object. -/
def statsErrorAccepts : Json → Bool
  | .obj fs =>
    zField fs "status" (zLiteral "ERROR") && zField fs "error" statsErrorDetailAccepts
  | _ => false

/-- `GetMarketStatsResponseSchema`: `z.discriminatedUnion("status", [...])`. -/
def statsResponseAccepts (v : Json) : Bool :=
  match v.get "status" with
  | some (.str s) =>
    if s == "OK" then statsSuccessAccepts v
    else if s == "ERROR" then statsErrorAccepts v
    else false
  | _ => false

/-- A deleverage-level record shape: integer `level` in `[1,4]` and a
string `rankingLowerBound` — no condition on other keys. -/
def IsDeleverageLevelShape (d : Json) : Prop :=
  (∃ q, d.get "level" = some (.num q) ∧ q.den = 1 ∧ (1 : Rat) ≤ q ∧ q ≤ (4 : Rat)) ∧
  (∃ s, d.get "rankingLowerBound" = some (.str s))

/-- The market-stats record shape: the fifteen required fields (fourteen
strings and the positive integer `nextFundingRate`) plus the
`deleverageLevels` object with its two arrays — no condition on other
keys. -/
def IsMarketStatsShape (m : Json) : Prop :=
  (∃ s, m.get "dailyVolume" = some (.str s)) ∧
  (∃ s, m.get "dailyVolumeBase" = some (.str s)) ∧
  (∃ s, m.get "dailyPriceChange" = some (.str s)) ∧
  (∃ s, m.get "dailyPriceChangePercentage" = some (.str s)) ∧
  (∃ s, m.get "dailyLow" = some (.str s)) ∧
  (∃ s, m.get "dailyHigh" = some (.str s)) ∧
  (∃ s, m.get "lastPrice" = some (.str s)) ∧
  (∃ s, m.get "askPrice" = some (.str s)) ∧
  (∃ s, m.get "bidPrice" = some (.str s)) ∧
  (∃ s, m.get "markPrice" = some (.str s)) ∧
  (∃ s, m.get "indexPrice" = some (.str s)) ∧
  (∃ s, m.get "fundingRate" = some (.str s)) ∧
  (∃ q, m.get "nextFundingRate" = some (.num q) ∧ q.den = 1 ∧ 0 < q) ∧
  (∃ s, m.get "openInterest" = some (.str s)) ∧
  (∃ s, m.get "openInterestBase" = some (.str s)) ∧
  (∃ dl, m.get "deleverageLevels" = some dl ∧
    (∃ l, dl.get "shortPositions" = some (.arr l) ∧ ∀ d ∈ l, IsDeleverageLevelShape d) ∧
    (∃ l, dl.get "longPositions" = some (.arr l) ∧ ∀ d ∈ l, IsDeleverageLevelShape d))

/-- The stats success envelope: `status` is `"OK"` and `data` is a
market-stats record. -/
def StatsOkShape (v : Json) : Prop :=
  v.get "status" = some (.str "OK") ∧
  ∃ d, v.get "data" = some d ∧ IsMarketStatsShape d

/-- The stats error envelope: `status` is `"ERROR"` and `error` carries a
code from the market error-code union plus a message string. -/
def StatsErrorShape (v : Json) : Prop :=
  v.get "status" = some (.str "ERROR") ∧
  ∃ e, v.get "error" = some e ∧
    (∃ code, e.get "code" = some (.str code) ∧
      (code ∈ generalErrorCodes ∨ code ∈ marketAssetAccountErrorCodes)) ∧
    (∃ m, e.get "message" = some (.str m))

/-! ### The HTTP transport (src/transports/http.ts)

`HttpTransport` holds immutable configuration; `request` builds the URL,
serializes query parameters, arms an optional timeout timer, performs the
fetch and classifies the response.  The fetch outcome is an explicit input
of the model (`FetchResult`), and the model returns a trace recording, next
to the result, the facts the claims are about: which abort signal was
handed to `fetch`, whether the timeout timer was started, and whether it
was cleared (the source clears it in a `finally` block, which JS runs on
every exit path of the `try`). -/

/-- A query-parameter value: `string | number | boolean | string[]`. -/
inductive QueryValue where
  | str (s : String) : QueryValue
  | num (n : Int) : QueryValue
  | bool (b : Bool) : QueryValue
  | arr (elems : List String) : QueryValue

/-- JS `String(value)` on a query/path parameter value. -/
def QueryValue.render : QueryValue → String
  | .str s => s
  | .num n => toString n
  | .bool b => if b then "true" else "false"
  | .arr _ => ""

/-- `URLSearchParams.set`: replace the value of the first pair with the key
in place, dropping every later pair with the same key; append a new pair at
the end when the key is absent. -/
def searchParamsSet (pairs : List (String × String)) (k v : String) : List (String × String) :=
  if pairs.any (fun p => p.1 == k) then
    setFirstPair pairs k v
  else
    pairs ++ [(k, v)]
where
  /-- Replace the first pair with key `k` and drop later ones. -/
  setFirstPair : List (String × String) → String → String → List (String × String)
    | [], _, _ => []
    | p :: rest, k, v =>
      if p.1 == k then (k, v) :: rest.filter (fun q => ¬(q.1 == k))
      else p :: setFirstPair rest k v

/-- `URLSearchParams.append`: add the pair at the end. -/
def searchParamsAppend (pairs : List (String × String)) (k v : String) : List (String × String) :=
  pairs ++ [(k, v)]

/-- One iteration of the query-serialization loop of
`HttpTransport.request`: arrays are appended one pair per element (in array
order), scalars are `set`. -/
def addQueryParam (pairs : List (String × String)) (kv : String × QueryValue) :
    List (String × String) :=
  match kv.2 with
  | .arr elems => elems.foldl (fun acc v => searchParamsAppend acc kv.1 v) pairs
  | scalar => searchParamsSet pairs kv.1 scalar.render

/-- The whole query-serialization loop, over `Object.entries(params)` in
insertion order, starting from the URL's (empty) search params. -/
def serializeQuery (params : List (String × QueryValue)) : List (String × String) :=
  params.foldl addQueryParam []

/-- The response fields `HttpTransport.request` inspects.  `bodyTextRead`
is the outcome of `response.text()` (`none` models a body-read failure,
which the source swallows); `body` is the JSON value `response.json()`
produces when the classification reaches it. -/
structure HttpResponse where
  status : Int
  contentType : Option String
  bodyTextRead : Option String
  body : Json

/-- `Response.ok`: status in the inclusive range 200–299. -/
def responseOk (r : HttpResponse) : Bool :=
  200 ≤ r.status && r.status ≤ 299

/-- `contentType?.includes("application/json")` — substring containment,
false when the header is absent (optional chaining yields `undefined`,
which is falsy). -/
def contentTypeIsJson : Option String → Bool
  | none => false
  | some ct => containsSub "application/json".toList ct.toList

/-- `${contentType}` interpolation: `null` prints as "null". -/
def renderContentType : Option String → String
  | none => "null"
  | some ct => ct

/-- `HttpRequestError` (src/errors/http.ts): carries the response's status,
the optional raw body text, and the composed message
`"HTTP request failed: status S" (+ ", body \"B\"" when B is truthy)`. -/
structure HttpRequestErrorModel where
  status : Int
  responseBody : Option String
  message : String

/-- The `HttpRequestError` constructor's message composition. -/
def mkHttpRequestError (status : Int) (responseBody : Option String) : HttpRequestErrorModel :=
  { status := status
    responseBody := responseBody
    message :=
      "HTTP request failed: status " ++ toString status ++
        match responseBody with
        | some b => if b == "" then "" else ", body \"" ++ b ++ "\""
        | none => "" }

/-- How a `request` call can fail: an `HttpRequestError` thrown by the
classification, or a rejection propagated from `fetch` itself (network
failure or abort). -/
inductive TransportFailure where
  | http (e : HttpRequestErrorModel) : TransportFailure
  | network : TransportFailure

/-- The outcome of the `fetch` call, an input of the model. -/
inductive FetchResult where
  | ok (r : HttpResponse) : FetchResult
  | fail : FetchResult

/-- Identity of the abort signal handed to `fetch`. -/
inductive SignalId where
  | caller : SignalId
  | timer : SignalId
deriving DecidableEq

/-- The stored configuration of an `HttpTransport` instance (the fields
`request` reads).  `timeout` keeps the `number | null` type of the field. -/
structure HttpTransportState where
  isTestnet : Bool
  timeout : Option Int
  mainnetApi : String
  testnetApi : String

/-- The constructor options (each field `none` when omitted);
`timeout = some none` models an explicit `timeout: null`. -/
structure HttpTransportOptionsModel where
  isTestnet : Option Bool := none
  timeout : Option (Option Int) := none
  mainnetApi : Option String := none
  testnetApi : Option String := none

/-- JS nullish coalescing `a ?? b` on an optional-of-nullable slot: both an
omitted field (`none`) and an explicit `null` (`some none`) fall back. -/
def nullish (a : Option (Option Int)) (b : Int) : Option Int :=
  match a with
  | some (some n) => some n
  | _ => some b

/-- The `HttpTransport` constructor:
`this.timeout = options?.timeout ?? 10_000` and the server defaults. -/
def HttpTransportState.create (options : Option HttpTransportOptionsModel) :
    HttpTransportState :=
  { isTestnet := ((options.map (·.isTestnet)).join).getD false
    timeout := nullish ((options.map (·.timeout)).join) 10000
    mainnetApi := ((options.map (·.mainnetApi)).join).getD "https://app.extended.exchange"
    testnetApi := ((options.map (·.testnetApi)).join).getD "https://testnet.extended.exchange" }

/-- JS truthiness of `this.timeout` (`number | null`): `null` and `0` are
falsy, every other number is truthy. -/
def timeoutActive (timeout : Option Int) : Bool :=
  match timeout with
  | none => false
  | some n => !(n == 0)

/-- Everything `HttpTransport.request` does around the fetch, as a trace.
`result` is the promise outcome; `fetchSignal` the signal passed to
`fetch`; `timerStarted`/`timerCleared` the timeout timer's lifecycle. -/
structure RequestTrace where
  reqMethod : String
  url : String
  queryPairs : List (String × String)
  fetchSignal : Option SignalId
  timerStarted : Bool
  timerCleared : Bool
  result : Except TransportFailure Json

/-- `HttpTransport.request` (src/transports/http.ts, lines 136–204): path
substitution, URL and query building, timeout controller setup, signal
selection `signal || controller?.signal`, fetch, response classification,
and the `finally` that clears the timer.  Hooks (`onRequest`/`onResponse`)
are identity here: the claims quantify over the final request/response,
which `fetchResult` already is. -/
def HttpTransportState.requestRun (st : HttpTransportState) (method path : String)
    (params : List (String × QueryValue)) (pathParams : List (String × String))
    (signal : Option Unit) (fetchResult : FetchResult) : RequestTrace :=
  let processedPath := substitutePathParams path pathParams
  let baseUrl := if st.isTestnet then st.testnetApi else st.mainnetApi
  let url := baseUrl ++ "/api/v1/" ++ processedPath
  let queryPairs := serializeQuery params
  let timerOn := timeoutActive st.timeout
  let fetchSignal : Option SignalId :=
    match signal with
    | some _ => some .caller
    | none => if timerOn then some .timer else none
  let result : Except TransportFailure Json :=
    match fetchResult with
    | .fail => .error .network
    | .ok r =>
      if !(responseOk r) then
        .error (.http (mkHttpRequestError r.status r.bodyTextRead))
      else if !(contentTypeIsJson r.contentType) then
        .error (.http (mkHttpRequestError r.status
          (some ("Expected JSON response, got " ++ renderContentType r.contentType))))
      else
        .ok r.body
  { reqMethod := method
    url := url
    queryPairs := queryPairs
    fetchSignal := fetchSignal
    timerStarted := timerOn
    timerCleared := timerOn
    result := result }

/-! ### The Info client (src/clients/info.ts)

Each endpoint method validates its own arguments, then calls
`transport.request(method, pathTemplate, params, pathParams, signal)` and
unwraps the discriminated envelope.  The transport is a function argument
here, and each method returns, next to its result, the list of transport
requests it issued, so that "raises without ever invoking the transport" is
a statement about the model and not about its absence. -/

/-- The arguments of one `transport.request` invocation. -/
structure TransportRequest where
  reqMethod : String
  path : String
  params : List (String × QueryValue)
  pathParams : List (String × String)

/-- The errors an `InfoClient` method can throw: `InvalidInputError`
(src/errors/base.ts) from local validation, the generic `Error` built from
a server-reported `ERROR` envelope, and the generic `Error` built from an
unrecognized envelope (carrying the raw payload). -/
inductive ClientError where
  | invalidInput (message : String) : ClientError
  | apiError (code : String) (message : String) : ClientError
  | unexpected (raw : Json) : ClientError

/-- Is the error an `InvalidInputError`? -/
def ClientError.isInvalidInput : ClientError → Bool
  | .invalidInput _ => true
  | _ => false

/-- A decoded envelope as the methods' response type annotations describe
it: the `OK` variant with the endpoint's data, the `ERROR` variant with
code and message, or any other runtime shape (the annotations are casts,
not checks, and every method has an explicit fall-through branch). -/
inductive ApiResponse (α : Type) where
  | ok (data : α) : ApiResponse α
  | err (code : String) (message : String) : ApiResponse α
  | other (raw : Json) : ApiResponse α

/-- A funding-rate record (`FundingRateSchema`). -/
structure FundingRate where
  m : String
  T : Int
  f : String

/-- A pagination block (`PaginationSchema`). -/
structure Pagination where
  cursor : Int
  count : Int

/-- The funding endpoint's response annotation: `OK` with data and an
optional pagination block, `ERROR`, or any other runtime shape. -/
inductive FundingResponse where
  | ok (data : List FundingRate) (pagination : Option Pagination) : FundingResponse
  | err (code : String) (message : String) : FundingResponse
  | other (raw : Json) : FundingResponse

/-- `market.match(/^[A-Z-]+$/)` guarded by `!market`: nonempty, uppercase
ASCII letters and hyphens only. -/
def validMarketSymbol (market : String) : Bool :=
  decide (market.length ≠ 0) &&
    market.toList.all (fun c => (65 ≤ c.toNat && c.toNat ≤ 90) || c == '-')

/-- The shared `OK`/`ERROR`/fall-through unwrapping at the end of each
method (`if (response.status === "OK") ... if (response.status === "ERROR")
... throw Unexpected`). -/
def handleEnvelope : ApiResponse α → Except ClientError α
  | .ok data => .ok data
  | .err code message => .error (.apiError code message)
  | .other raw => .error (.unexpected raw)

/-- A method outcome: the returned value or thrown error, plus the list of
transport requests the method issued. -/
def MethodRun (α : Type) := Except ClientError α × List TransportRequest

/-- `InfoClient.marketStats`: validates the market symbol, then requests
`info/markets/\x7bmarket\x7d/stats` with the market as path parameter. -/
def marketStats (market : String) (transport : TransportRequest → ApiResponse α) :
    MethodRun α :=
  if !(validMarketSymbol market) then
    (.error (.invalidInput "Invalid market input."), [])
  else
    let req : TransportRequest :=
      { reqMethod := "GET", path := "info/markets/\x7bmarket\x7d/stats",
        params := [], pathParams := [("market", market)] }
    (handleEnvelope (transport req), [req])

/-- `InfoClient.marketOrderBook`: requests
`info/markets/\x7bmarket\x7d/orderbook`.  The source has no market-symbol
validation in this method. -/
def marketOrderBook (market : String) (transport : TransportRequest → ApiResponse α) :
    MethodRun α :=
  let req : TransportRequest :=
    { reqMethod := "GET", path := "info/markets/\x7bmarket\x7d/orderbook",
      params := [], pathParams := [("market", market)] }
  (handleEnvelope (transport req), [req])

/-- `InfoClient.marketTrades`: validates the market symbol, then requests
`info/markets/\x7bmarket\x7d/trades`. -/
def marketTrades (market : String) (transport : TransportRequest → ApiResponse α) :
    MethodRun α :=
  if !(validMarketSymbol market) then
    (.error (.invalidInput "Invalid market input."), [])
  else
    let req : TransportRequest :=
      { reqMethod := "GET", path := "info/markets/\x7bmarket\x7d/trades",
        params := [], pathParams := [("market", market)] }
    (handleEnvelope (transport req), [req])

/-- `InfoClient.candles`: validates market, interval nonempty, limit
positive (`!limit || limit <= 0` — `0` is falsy), and the candle type
against `/^(trades|mark-prices|index-prices)$/`; then requests
`info/candles/\x7bmarket\x7d/\x7bcandleType\x7d` with `interval`,
`limit` and the optional `endTime` as query parameters. -/
def candles (market candleType interval : String) (limit : Int) (endTime : Option Int)
    (transport : TransportRequest → ApiResponse α) : MethodRun α :=
  if !(validMarketSymbol market) then
    (.error (.invalidInput "Invalid market input."), [])
  else if interval == "" then
    (.error (.invalidInput "Interval is required."), [])
  else if limit ≤ 0 then
    (.error (.invalidInput "Limit must be a positive number."), [])
  else if !(candleType == "trades" || candleType == "mark-prices" ||
      candleType == "index-prices") then
    (.error (.invalidInput "Invalid candleType."), [])
  else
    let baseParams := [("interval", QueryValue.str interval), ("limit", QueryValue.num limit)]
    let ps := match endTime with
      | some t => baseParams ++ [("endTime", QueryValue.num t)]
      | none => baseParams
    let req : TransportRequest :=
      { reqMethod := "GET", path := "info/candles/\x7bmarket\x7d/\x7bcandleType\x7d",
        params := ps, pathParams := [("market", market), ("candleType", candleType)] }
    (handleEnvelope (transport req), [req])

/-- `limit !== undefined && (limit <= 0 || limit > bound)`: the supplied
limit is outside `[1, bound]`. -/
def limitOutOfRange : Option Int → Int → Bool
  | some lim, bound => lim ≤ 0 || bound < lim
  | none, _ => false

/-- The value `InfoClient.funding` resolves with. -/
structure FundingResult where
  data : List FundingRate
  pagination : Pagination

/-- The funding method's envelope unwrapping, with the
`response.pagination || \x7b cursor: 0, count: data.length \x7d` default. -/
def handleFundingEnvelope : FundingResponse → Except ClientError FundingResult
  | .ok data pagination =>
    .ok { data := data
          pagination := pagination.getD { cursor := 0, count := Int.ofNat data.length } }
  | .err code message => .error (.apiError code message)
  | .other raw => .error (.unexpected raw)

/-- `InfoClient.funding`: validates market, positive `startTime` and
`endTime` (`!startTime || startTime <= 0` — `0` is falsy), `startTime <
endTime`, and an optional `limit` in `[1, 10000]`; then requests
`info/\x7bmarket\x7d/funding` and unwraps with the pagination default. -/
def funding (market : String) (startTime endTime : Int)
    (cursor limit : Option Int)
    (transport : TransportRequest → FundingResponse) : MethodRun FundingResult :=
  if !(validMarketSymbol market) then
    (.error (.invalidInput "Invalid market input."), [])
  else if startTime ≤ 0 then
    (.error (.invalidInput "Start time must be a positive number."), [])
  else if endTime ≤ 0 then
    (.error (.invalidInput "End time must be a positive number."), [])
  else if endTime ≤ startTime then
    (.error (.invalidInput "Start time must be before end time."), [])
  else if limitOutOfRange limit 10000 then
    (.error (.invalidInput "Limit must be between 1 and 10000."), [])
  else
    let baseParams :=
      [("startTime", QueryValue.num startTime), ("endTime", QueryValue.num endTime)]
    let withCursor := match cursor with
      | some cur => baseParams ++ [("cursor", QueryValue.num cur)]
      | none => baseParams
    let ps := match limit with
      | some lim => withCursor ++ [("limit", QueryValue.num lim)]
      | none => withCursor
    let req : TransportRequest :=
      { reqMethod := "GET", path := "info/\x7bmarket\x7d/funding",
        params := ps, pathParams := [("market", market)] }
    (handleFundingEnvelope (transport req), [req])

/-- `InfoClient.openInterest`: validates market, the interval against
`/^(P1H|P1D)$/`, positive `startTime` and `endTime`, `startTime < endTime`,
and an optional `limit` in `[1, 300]`; then requests
`info/\x7bmarket\x7d/open-interests`. -/
def openInterest (market interval : String) (startTime endTime : Int)
    (limit : Option Int) (transport : TransportRequest → ApiResponse α) : MethodRun α :=
  if !(validMarketSymbol market) then
    (.error (.invalidInput "Invalid market input."), [])
  else if !(interval == "P1H" || interval == "P1D") then
    (.error (.invalidInput "Interval must be P1H or P1D."), [])
  else if startTime ≤ 0 then
    (.error (.invalidInput "Start time must be a positive number."), [])
  else if endTime ≤ 0 then
    (.error (.invalidInput "End time must be a positive number."), [])
  else if endTime ≤ startTime then
    (.error (.invalidInput "Start time must be before end time."), [])
  else if limitOutOfRange limit 300 then
    (.error (.invalidInput "Limit must be between 1 and 300."), [])
  else
    let baseParams :=
      [("interval", QueryValue.str interval), ("startTime", QueryValue.num startTime),
       ("endTime", QueryValue.num endTime)]
    let ps := match limit with
      | some lim => baseParams ++ [("limit", QueryValue.num lim)]
      | none => baseParams
    let req : TransportRequest :=
      { reqMethod := "GET", path := "info/\x7bmarket\x7d/open-interests",
        params := ps, pathParams := [("market", market)] }
    (handleEnvelope (transport req), [req])

/-- Modelled from the spec: the predicted query expansion of one entry —
a scalar value yields exactly one `key=value` pair, an array value one
pair per element in the array's order. -/
def expandQueryEntry (kv : String × QueryValue) : List (String × String) :=
  match kv.2 with
  | .arr elems => elems.map (fun v => (kv.1, v))
  | scalar => [(kv.1, scalar.render)]

/-! ### Supporting lemmas -/

theorem startsWithL_iff {pat s : List Char} :
    startsWithL pat s = true ↔ ∃ t, s = pat ++ t := by
  induction pat generalizing s with
  | nil => simp [startsWithL]
  | cons p ps ih =>
    cases s with
    | nil => simp [startsWithL]
    | cons c cs =>
      simp only [startsWithL, Bool.and_eq_true, beq_iff_eq, ih, List.cons_append,
        List.cons.injEq]
      constructor
      · rintro ⟨hpc, t, ht⟩
        exact ⟨t, hpc.symm, ht⟩
      · rintro ⟨t, hcp, ht⟩
        exact ⟨hcp.symm, t, ht⟩

/-- A successful first-match split decomposes the string at the match, and the
match position is minimal among all decompositions. -/
theorem splitFirst_eq_some {pat s : List Char} {pre post : List Char}
    (h : splitFirst pat s = some (pre, post)) :
    s = pre ++ pat ++ post ∧
      ∀ pre2 post2 : List Char, s = pre2 ++ pat ++ post2 → pre.length ≤ pre2.length := by
  induction s generalizing pre post with
  | nil =>
    by_cases hsw : startsWithL pat [] = true
    · obtain ⟨t, ht⟩ := startsWithL_iff.mp hsw
      have hpat : pat = [] := by
        cases pat with
        | nil => rfl
        | cons a l => simp at ht
      simp only [splitFirst, hsw, if_true, Option.some.injEq, Prod.mk.injEq] at h
      obtain ⟨hpre, hpost⟩ := h
      subst hpre hpost
      simp [hpat]
    · simp [splitFirst, hsw] at h
  | cons c cs ih =>
    by_cases hsw : startsWithL pat (c :: cs) = true
    · obtain ⟨t, ht⟩ := startsWithL_iff.mp hsw
      simp only [splitFirst, hsw, if_true, Option.some.injEq, Prod.mk.injEq] at h
      obtain ⟨hpre, hpost⟩ := h
      subst hpre
      constructor
      · rw [← hpost, ht]
        simp [List.drop_left]
      · intro pre2 post2 _
        simp
    · simp only [splitFirst, hsw, Bool.false_eq_true, if_false, Option.map_eq_some'] at h
      obtain ⟨q, hq, hqe⟩ := h
      have hpre : pre = c :: q.1 := by
        have := congrArg Prod.fst hqe
        simpa using this.symm
      have hpost : post = q.2 := by
        have := congrArg Prod.snd hqe
        simpa using this.symm
      obtain ⟨hdec, hmin⟩ := ih (show splitFirst pat cs = some (q.1, q.2) by rw [hq])
      subst hpre hpost
      constructor
      · simp [hdec]
      · intro pre2 post2 hsplit
        cases pre2 with
        | nil =>
          exfalso
          apply hsw
          exact startsWithL_iff.mpr ⟨post2, by simpa using hsplit⟩
        | cons c2 cs2 =>
          simp only [List.cons_append, List.cons.injEq] at hsplit
          have := hmin cs2 post2 hsplit.2
          simpa using this

/-- A failed first-match search means no decomposition of the string around
the pattern exists at all. -/
theorem splitFirst_eq_none {pat s : List Char}
    (h : splitFirst pat s = none) :
    ∀ pre post : List Char, s ≠ pre ++ pat ++ post := by
  induction s with
  | nil =>
    intro pre post hdec
    cases pat with
    | nil => simp [splitFirst, startsWithL] at h
    | cons a l =>
      have := congrArg List.length hdec
      simp only [List.length_nil, List.length_append, List.length_cons] at this
      omega
  | cons c cs ih =>
    intro pre post hdec
    by_cases hsw : startsWithL pat (c :: cs) = true
    · simp [splitFirst, hsw] at h
    · simp only [splitFirst, hsw, Bool.false_eq_true, if_false, Option.map_eq_none'] at h
      cases pre with
      | nil =>
        exact hsw (startsWithL_iff.mpr ⟨post, by simpa using hdec⟩)
      | cons c2 cs2 =>
        simp only [List.cons_append, List.cons.injEq] at hdec
        exact ih h cs2 post hdec.2

/-- A replacement text without a dollar sign is expanded to itself. -/
theorem getSubstitution_no_dollar (matched pre post : List Char) :
    ∀ rep : List Char, '$' ∉ rep → getSubstitution matched pre post rep = rep := by
  intro rep
  induction rep with
  | nil => intro _; rfl
  | cons c rest ih =>
    intro h
    have hc : c ≠ '$' := fun hcd => h (hcd ▸ List.mem_cons_self c rest)
    have hrest : '$' ∉ rest := fun hm => h (List.mem_cons_of_mem c hm)
    rw [getSubstitution.eq_def]
    simp only [hc, if_false]
    rw [ih hrest]

theorem zField_iff {fs : List (String × Json)} {k : String} {p : Json → Bool} :
    zField fs k p = true ↔ ∃ j, fieldLookup fs k = some j ∧ p j = true := by
  cases h : fieldLookup fs k <;> simp [zField, h]

theorem zFieldOpt_iff {fs : List (String × Json)} {k : String} {p : Json → Bool} :
    zFieldOpt fs k p = true ↔ ∀ j, fieldLookup fs k = some j → p j = true := by
  cases h : fieldLookup fs k <;> simp [zFieldOpt, h]

theorem zString_iff {j : Json} : zString j = true ↔ ∃ s, j = .str s := by
  cases j <;> simp [zString]

theorem zNumberInt_iff {j : Json} : zNumberInt j = true ↔ ∃ q, j = .num q ∧ q.den = 1 := by
  cases j <;> simp [zNumberInt]

theorem zLiteral_iff {s : String} {j : Json} : zLiteral s j = true ↔ j = .str s := by
  cases j <;> simp [zLiteral]

theorem zEnum_iff {options : List String} {j : Json} :
    zEnum options j = true ↔ ∃ t, j = .str t ∧ t ∈ options := by
  cases j <;> simp [zEnum]

theorem zArray_iff {p : Json → Bool} {j : Json} :
    zArray p j = true ↔ ∃ l, j = .arr l ∧ ∀ c ∈ l, p c = true := by
  cases j <;> simp [zArray, List.all_eq_true]

theorem exists_bind_shape {o : Option Json} {f : α → Json} {P : α → Prop} :
    (∃ j, o = some j ∧ ∃ x, j = f x ∧ P x) ↔ ∃ x, o = some (f x) ∧ P x := by
  constructor
  · rintro ⟨j, hj, x, rfl, hx⟩
    exact ⟨x, hj, hx⟩
  · rintro ⟨x, hx, hp⟩
    exact ⟨f x, hx, x, rfl, hp⟩

theorem exists_bind_mk {o : Option Json} {f : α → Json} :
    (∃ j, o = some j ∧ ∃ x, j = f x) ↔ ∃ x, o = some (f x) := by
  constructor
  · rintro ⟨j, hj, x, rfl⟩
    exact ⟨x, hj⟩
  · rintro ⟨x, hx⟩
    exact ⟨f x, hx, x, rfl⟩

theorem candleAccepts_iff {c : Json} : candleAccepts c = true ↔ IsCandleShape c := by
  cases c <;>
    simp [candleAccepts, IsCandleShape, Json.get, Bool.and_eq_true, zField_iff,
      zFieldOpt_iff, zString_iff, zNumberInt_iff, exists_bind_shape, exists_bind_mk,
      and_assoc]

theorem candlesSuccessAccepts_iff {v : Json} :
    candlesSuccessAccepts v = true ↔ CandlesOkShape v := by
  cases v <;>
    simp [candlesSuccessAccepts, CandlesOkShape, Json.get, Bool.and_eq_true, zField_iff,
      zLiteral_iff, zArray_iff, candleAccepts_iff, exists_bind_shape, exists_bind_mk,
      and_assoc]

theorem candlesErrorAccepts_iff {v : Json} :
    candlesErrorAccepts v = true ↔ CandlesErrorShape v := by
  cases v with
  | obj fs =>
    simp only [candlesErrorAccepts, CandlesErrorShape, Json.get, Bool.and_eq_true,
      zField_iff, zLiteral_iff]
    constructor
    · rintro ⟨⟨j, hj, rfl⟩, e, he, hdet⟩
      refine ⟨hj, e, he, ?_⟩
      cases e with
      | obj efs =>
        simp only [candlesErrorDetailAccepts, Bool.and_eq_true, zField_iff, zEnum_iff,
          zString_iff] at hdet
        obtain ⟨⟨jc, hjc, t, rfl, ht⟩, jm, hjm, m, rfl⟩ := hdet
        exact ⟨⟨t, hjc, ht⟩, m, hjm⟩
      | null => simp [candlesErrorDetailAccepts] at hdet
      | bool b => simp [candlesErrorDetailAccepts] at hdet
      | num q => simp [candlesErrorDetailAccepts] at hdet
      | str s => simp [candlesErrorDetailAccepts] at hdet
      | arr l => simp [candlesErrorDetailAccepts] at hdet
    · rintro ⟨hst, e, he, ⟨code, hcode, hmem⟩, m, hm⟩
      refine ⟨⟨_, hst, rfl⟩, e, he, ?_⟩
      cases e with
      | obj efs =>
        simp only [candlesErrorDetailAccepts, Bool.and_eq_true, zField_iff, zEnum_iff,
          zString_iff]
        exact ⟨⟨_, hcode, code, rfl, hmem⟩, _, hm, m, rfl⟩
      | null => simp [Json.get] at hcode
      | bool b => simp [Json.get] at hcode
      | num q => simp [Json.get] at hcode
      | str s => simp [Json.get] at hcode
      | arr l => simp [Json.get] at hcode
  | null => simp [candlesErrorAccepts, CandlesErrorShape, Json.get]
  | bool b => simp [candlesErrorAccepts, CandlesErrorShape, Json.get]
  | num q => simp [candlesErrorAccepts, CandlesErrorShape, Json.get]
  | str s => simp [candlesErrorAccepts, CandlesErrorShape, Json.get]
  | arr l => simp [candlesErrorAccepts, CandlesErrorShape, Json.get]

/-- The discriminated-union validator accepts exactly the values that match
one of the two envelope shapes (required fields present and well-shaped;
unknown fields ignored). -/
theorem candlesResponseAccepts_iff {v : Json} :
    candlesResponseAccepts v = true ↔ (CandlesOkShape v ∨ CandlesErrorShape v) := by
  unfold candlesResponseAccepts
  cases hv : v.get "status" with
  | none =>
    simp only []
    constructor
    · intro h
      simp at h
    · rintro (h | h) <;> rw [h.1] at hv <;> simp at hv
  | some j =>
    cases j with
    | str s =>
      by_cases hok : s = "OK"
      · subst hok
        simp only [beq_self_eq_true, if_true]
        rw [candlesSuccessAccepts_iff]
        constructor
        · exact Or.inl
        · rintro (h | h)
          · exact h
          · rw [h.1] at hv
            simp at hv
      · by_cases herr : s = "ERROR"
        · subst herr
          have : (("ERROR" : String) == "OK") = false := by decide
          simp only [this, Bool.false_eq_true, if_false, beq_self_eq_true, if_true]
          rw [candlesErrorAccepts_iff]
          constructor
          · exact Or.inr
          · rintro (h | h)
            · rw [h.1] at hv
              simp at hv
            · exact h
        · have h1 : (s == "OK") = false := by simpa using hok
          have h2 : (s == "ERROR") = false := by simpa using herr
          simp only [h1, h2, Bool.false_eq_true, if_false]
          constructor
          · intro h
            simp at h
          · rintro (h | h) <;> rw [h.1] at hv <;> simp at hv <;> tauto
    | null =>
      constructor
      · intro h
        simp at h
      · rintro (h | h) <;> rw [h.1] at hv <;> simp at hv
    | bool b =>
      constructor
      · intro h
        simp at h
      · rintro (h | h) <;> rw [h.1] at hv <;> simp at hv
    | num q =>
      constructor
      · intro h
        simp at h
      · rintro (h | h) <;> rw [h.1] at hv <;> simp at hv
    | arr l =>
      constructor
      · intro h
        simp at h
      · rintro (h | h) <;> rw [h.1] at hv <;> simp at hv
    | obj fs =>
      constructor
      · intro h
        simp at h
      · rintro (h | h) <;> rw [h.1] at hv <;> simp at hv

/-- The two envelope shapes are mutually exclusive (the `status`
discriminator cannot be two different strings). -/
theorem candlesShapes_exclusive {v : Json} : ¬(CandlesOkShape v ∧ CandlesErrorShape v) := by
  rintro ⟨⟨hok, _⟩, ⟨herr, _⟩⟩
  rw [hok] at herr
  have := Option.some.inj herr
  exact absurd (congrArg (fun j => match j with | Json.str s => s | _ => "") this)
    (by decide)

theorem zNumberIntPositive_iff {j : Json} :
    zNumberIntPositive j = true ↔ ∃ q, j = .num q ∧ q.den = 1 ∧ 0 < q := by
  cases j <;> simp [zNumberIntPositive, and_assoc]

theorem zLevelNumber_iff {j : Json} :
    zLevelNumber j = true ↔
      ∃ q, j = .num q ∧ q.den = 1 ∧ (1 : Rat) ≤ q ∧ q ≤ (4 : Rat) := by
  cases j <;> simp [zLevelNumber, and_assoc]

theorem marketErrorCodeAccepts_iff {j : Json} :
    marketErrorCodeAccepts j = true ↔
      ∃ t, j = .str t ∧ (t ∈ generalErrorCodes ∨ t ∈ marketAssetAccountErrorCodes) := by
  cases j <;> simp [marketErrorCodeAccepts, zEnum, exists_or, ← exists_or]

theorem deleverageLevelAccepts_iff {d : Json} :
    deleverageLevelAccepts d = true ↔ IsDeleverageLevelShape d := by
  cases d <;>
    simp [deleverageLevelAccepts, IsDeleverageLevelShape, Json.get, Bool.and_eq_true,
      zField_iff, zString_iff, zLevelNumber_iff, exists_bind_shape, exists_bind_mk,
      and_assoc]

theorem deleverageLevelsAccepts_iff {dl : Json} :
    deleverageLevelsAccepts dl = true ↔
      (∃ l, dl.get "shortPositions" = some (.arr l) ∧ ∀ d ∈ l, IsDeleverageLevelShape d) ∧
      (∃ l, dl.get "longPositions" = some (.arr l) ∧ ∀ d ∈ l, IsDeleverageLevelShape d) := by
  cases dl <;>
    simp [deleverageLevelsAccepts, Json.get, Bool.and_eq_true, zField_iff, zArray_iff,
      deleverageLevelAccepts_iff, exists_bind_shape, exists_bind_mk, and_assoc]

theorem marketStatsAccepts_iff {m : Json} :
    marketStatsAccepts m = true ↔ IsMarketStatsShape m := by
  cases m <;>
    simp [marketStatsAccepts, IsMarketStatsShape, Json.get, Bool.and_eq_true, zField_iff,
      zString_iff, zNumberIntPositive_iff, deleverageLevelsAccepts_iff, exists_bind_shape,
      exists_bind_mk, and_assoc]

theorem statsSuccessAccepts_iff {v : Json} :
    statsSuccessAccepts v = true ↔ StatsOkShape v := by
  cases v <;>
    simp [statsSuccessAccepts, StatsOkShape, Json.get, Bool.and_eq_true, zField_iff,
      zLiteral_iff, marketStatsAccepts_iff, exists_bind_shape, exists_bind_mk, and_assoc]

theorem statsErrorDetailAccepts_iff {e : Json} :
    statsErrorDetailAccepts e = true ↔
      (∃ code, e.get "code" = some (.str code) ∧
        (code ∈ generalErrorCodes ∨ code ∈ marketAssetAccountErrorCodes)) ∧
      (∃ m, e.get "message" = some (.str m)) := by
  cases e <;>
    simp [statsErrorDetailAccepts, Json.get, Bool.and_eq_true, zField_iff, zString_iff,
      marketErrorCodeAccepts_iff, exists_bind_shape, exists_bind_mk, and_assoc]

theorem statsErrorAccepts_iff {v : Json} :
    statsErrorAccepts v = true ↔ StatsErrorShape v := by
  cases v <;>
    simp [statsErrorAccepts, StatsErrorShape, Json.get, Bool.and_eq_true, zField_iff,
      zLiteral_iff, statsErrorDetailAccepts_iff, exists_bind_shape, exists_bind_mk,
      and_assoc]

/-- The stats discriminated-union validator accepts exactly the values
matching one of the two envelope shapes (required fields present and
well-shaped; unknown fields ignored). -/
theorem statsResponseAccepts_iff {v : Json} :
    statsResponseAccepts v = true ↔ (StatsOkShape v ∨ StatsErrorShape v) := by
  unfold statsResponseAccepts
  cases hv : v.get "status" with
  | none =>
    constructor
    · intro h
      simp at h
    · rintro (h | h) <;> rw [h.1] at hv <;> simp at hv
  | some j =>
    cases j with
    | str s =>
      by_cases hok : s = "OK"
      · subst hok
        simp only [beq_self_eq_true, if_true]
        rw [statsSuccessAccepts_iff]
        constructor
        · exact Or.inl
        · rintro (h | h)
          · exact h
          · rw [h.1] at hv
            simp at hv
      · by_cases herr : s = "ERROR"
        · subst herr
          have : (("ERROR" : String) == "OK") = false := by decide
          simp only [this, Bool.false_eq_true, if_false, beq_self_eq_true, if_true]
          rw [statsErrorAccepts_iff]
          constructor
          · exact Or.inr
          · rintro (h | h)
            · rw [h.1] at hv
              simp at hv
            · exact h
        · have h1 : (s == "OK") = false := by simpa using hok
          have h2 : (s == "ERROR") = false := by simpa using herr
          simp only [h1, h2, Bool.false_eq_true, if_false]
          constructor
          · intro h
            simp at h
          · rintro (h | h) <;> rw [h.1] at hv <;> simp at hv <;> tauto
    | null =>
      constructor
      · intro h
        simp at h
      · rintro (h | h) <;> rw [h.1] at hv <;> simp at hv
    | bool b =>
      constructor
      · intro h
        simp at h
      · rintro (h | h) <;> rw [h.1] at hv <;> simp at hv
    | num q =>
      constructor
      · intro h
        simp at h
      · rintro (h | h) <;> rw [h.1] at hv <;> simp at hv
    | arr l =>
      constructor
      · intro h
        simp at h
      · rintro (h | h) <;> rw [h.1] at hv <;> simp at hv
    | obj fs =>
      constructor
      · intro h
        simp at h
      · rintro (h | h) <;> rw [h.1] at hv <;> simp at hv

/-- The two stats envelope shapes are mutually exclusive. -/
theorem statsShapes_exclusive {v : Json} : ¬(StatsOkShape v ∧ StatsErrorShape v) := by
  rintro ⟨⟨hok, _⟩, ⟨herr, _⟩⟩
  rw [hok] at herr
  have := Option.some.inj herr
  exact absurd (congrArg (fun j => match j with | Json.str s => s | _ => "") this)
    (by decide)

/-- JS `String.replace` dollar-escape behaviour at the placeholder call
shape: a replacement of dollar-ampersand reinserts the matched
placeholder, and a doubled dollar collapses to one. -/
theorem jsReplaceFirst_dollar_escapes :
    jsReplaceFirst "info/\x7bmarket\x7d" "\x7bmarket\x7d" "$&" = "info/\x7bmarket\x7d" ∧
    jsReplaceFirst "info/\x7bmarket\x7d" "\x7bmarket\x7d" "$$" = "info/$" :=
  ⟨rfl, rfl⟩

theorem expandQueryEntry_key {kv : String × QueryValue} {p : String × String}
    (hp : p ∈ expandQueryEntry kv) : p.1 = kv.1 := by
  obtain ⟨k, v⟩ := kv
  cases v with
  | arr elems =>
    simp only [expandQueryEntry, List.mem_map] at hp
    obtain ⟨e, -, rfl⟩ := hp
    rfl
  | str a => simp only [expandQueryEntry, List.mem_singleton] at hp; rw [hp]
  | num a => simp only [expandQueryEntry, List.mem_singleton] at hp; rw [hp]
  | bool a => simp only [expandQueryEntry, List.mem_singleton] at hp; rw [hp]

theorem foldl_searchParamsAppend (k : String) (elems : List String)
    (acc : List (String × String)) :
    elems.foldl (fun a v => searchParamsAppend a k v) acc
      = acc ++ elems.map (fun v => (k, v)) := by
  induction elems generalizing acc with
  | nil => simp
  | cons e es ih =>
    rw [List.foldl_cons, ih]
    simp [searchParamsAppend]

theorem searchParamsSet_absent {pairs : List (String × String)} {k v : String}
    (h : ∀ p ∈ pairs, p.1 ≠ k) : searchParamsSet pairs k v = pairs ++ [(k, v)] := by
  unfold searchParamsSet
  rw [if_neg]
  simp only [List.any_eq_true, beq_iff_eq, not_exists, not_and]
  exact fun p hp => h p hp

theorem addQueryParam_fresh {acc : List (String × String)} {kv : String × QueryValue}
    (h : ∀ p ∈ acc, p.1 ≠ kv.1) : addQueryParam acc kv = acc ++ expandQueryEntry kv := by
  obtain ⟨k, v⟩ := kv
  cases v with
  | arr elems => simp [addQueryParam, expandQueryEntry, foldl_searchParamsAppend]
  | str a => exact searchParamsSet_absent h
  | num a => exact searchParamsSet_absent h
  | bool a => exact searchParamsSet_absent h

theorem serializeQuery_go :
    ∀ (params : List (String × QueryValue)) (acc : List (String × String)),
      (∀ kv ∈ params, ∀ p ∈ acc, p.1 ≠ kv.1) → (params.map Prod.fst).Nodup →
        params.foldl addQueryParam acc = acc ++ params.flatMap expandQueryEntry := by
  intro params
  induction params with
  | nil => simp
  | cons hd tl ih =>
    intro acc hacc hnd
    have hnd1 : (hd.1 :: tl.map Prod.fst).Nodup := by simpa using hnd
    have hhd : hd.1 ∉ tl.map Prod.fst := (List.nodup_cons.mp hnd1).1
    have hnd2 : (tl.map Prod.fst).Nodup := (List.nodup_cons.mp hnd1).2
    have hstep : addQueryParam acc hd = acc ++ expandQueryEntry hd :=
      addQueryParam_fresh (hacc hd (List.mem_cons_self hd tl))
    have hacc2 : ∀ kv ∈ tl, ∀ p ∈ acc ++ expandQueryEntry hd, p.1 ≠ kv.1 := by
      intro kv hkv p hp
      rcases List.mem_append.mp hp with hpa | hpe
      · exact hacc kv (List.mem_cons_of_mem hd hkv) p hpa
      · rw [expandQueryEntry_key hpe]
        intro hcontra
        apply hhd
        rw [hcontra]
        exact List.mem_map_of_mem Prod.fst hkv
    calc (hd :: tl).foldl addQueryParam acc
        = tl.foldl addQueryParam (acc ++ expandQueryEntry hd) := by
          rw [List.foldl_cons, hstep]
      _ = (acc ++ expandQueryEntry hd) ++ tl.flatMap expandQueryEntry := ih _ hacc2 hnd2
      _ = acc ++ (hd :: tl).flatMap expandQueryEntry := by simp [List.flatMap_cons]

theorem flatMap_filter_key :
    ∀ (params : List (String × QueryValue)) (kv : String × QueryValue),
      (params.map Prod.fst).Nodup → kv ∈ params →
        (params.flatMap expandQueryEntry).filter (fun p => p.1 == kv.1)
          = expandQueryEntry kv := by
  intro params
  induction params with
  | nil => intro kv _ hkv; simp at hkv
  | cons hd tl ih =>
    intro kv hnd hkv
    have hnd1 : (hd.1 :: tl.map Prod.fst).Nodup := by simpa using hnd
    have hhd : hd.1 ∉ tl.map Prod.fst := (List.nodup_cons.mp hnd1).1
    have hnd2 : (tl.map Prod.fst).Nodup := (List.nodup_cons.mp hnd1).2
    rw [List.flatMap_cons, List.filter_append]
    rcases List.mem_cons.mp hkv with rfl | hmem
    · have h1 : (expandQueryEntry kv).filter (fun p => p.1 == kv.1)
          = expandQueryEntry kv := by
        rw [List.filter_eq_self]
        intro p hp
        simp [expandQueryEntry_key hp]
      have h2 : (tl.flatMap expandQueryEntry).filter (fun p => p.1 == kv.1) = [] := by
        rw [List.filter_eq_nil_iff]
        intro p hp
        obtain ⟨kv2, hkv2, hpe⟩ := List.mem_flatMap.mp hp
        rw [expandQueryEntry_key hpe]
        simp only [beq_iff_eq]
        intro hcontra
        apply hhd
        rw [← hcontra]
        exact List.mem_map_of_mem Prod.fst hkv2
      rw [h1, h2, List.append_nil]
    · have h1 : (expandQueryEntry hd).filter (fun p => p.1 == kv.1) = [] := by
        rw [List.filter_eq_nil_iff]
        intro p hp
        rw [expandQueryEntry_key hp]
        simp only [beq_iff_eq]
        intro hcontra
        apply hhd
        rw [hcontra]
        exact List.mem_map_of_mem Prod.fst hmem
      rw [h1, ih kv hnd2 hmem, List.nil_append]

/-! ### Claim theorems -/

/-- C1 counterexample: `InfoClient.marketOrderBook`, called with the
malformed (lowercase) symbol "btc-usd", invokes the transport with that
symbol as path parameter and raises no `InvalidInputError` — the method has
no symbol validation, refuting the claim for `marketOrderBook`. -/
theorem marketOrderBook_skips_symbol_validation :
    (marketOrderBook "btc-usd" (fun _ => ApiResponse.ok Json.null)).2 =
      [{ reqMethod := "GET", path := "info/markets/\x7bmarket\x7d/orderbook",
         params := [], pathParams := [("market", "btc-usd")] }] ∧
    (marketOrderBook "btc-usd" (fun _ => ApiResponse.ok Json.null)).1 = .ok Json.null :=
  ⟨rfl, rfl⟩

/-- C1 (amended): for the five symbol-validating endpoint methods —
`marketStats`, `marketTrades`, `candles`, `funding`, `openInterest` — every
market symbol that is empty or fails `^[A-Z-]+$` makes the method throw
`InvalidInputError` and issue no transport request; `marketOrderBook`
performs no such validation (see the counterexample). -/
theorem symbol_validation_blocks_transport :
    ∀ market : String, validMarketSymbol market = false →
      (∀ (α : Type) (t : TransportRequest → ApiResponse α),
        (marketStats market t).1 = .error (.invalidInput "Invalid market input.") ∧
        (marketStats market t).2 = [] ∧
        (marketTrades market t).1 = .error (.invalidInput "Invalid market input.") ∧
        (marketTrades market t).2 = []) ∧
      (∀ (α : Type) (candleType interval : String) (limit : Int) (endTime : Option Int)
          (t : TransportRequest → ApiResponse α),
        (candles market candleType interval limit endTime t).1 =
          .error (.invalidInput "Invalid market input.") ∧
        (candles market candleType interval limit endTime t).2 = []) ∧
      (∀ (startTime endTime : Int) (cursor limit : Option Int)
          (t : TransportRequest → FundingResponse),
        (funding market startTime endTime cursor limit t).1 =
          .error (.invalidInput "Invalid market input.") ∧
        (funding market startTime endTime cursor limit t).2 = []) ∧
      (∀ (α : Type) (interval : String) (startTime endTime : Int) (limit : Option Int)
          (t : TransportRequest → ApiResponse α),
        (openInterest market interval startTime endTime limit t).1 =
          .error (.invalidInput "Invalid market input.") ∧
        (openInterest market interval startTime endTime limit t).2 = []) := by
  intro market h
  refine ⟨fun α t => ?_, fun α ct iv lim et t => ?_, fun s e cur lim t => ?_,
    fun α iv s e lim t => ?_⟩ <;>
    simp [marketStats, marketTrades, candles, funding, openInterest, h]

/-- C1 witness: the five methods at the malformed symbol "btc-usd". -/
theorem symbol_validation_blocks_transport_witness :
    (marketStats "btc-usd" (fun _ => ApiResponse.ok Json.null)).1 =
      .error (.invalidInput "Invalid market input.") ∧
    (marketStats "btc-usd" (fun _ => ApiResponse.ok Json.null)).2 = [] ∧
    (funding "btc-usd" 1 2 none none (fun _ => FundingResponse.other Json.null)).2 = [] := by
  have h := symbol_validation_blocks_transport "btc-usd" (by rfl)
  exact ⟨(h.1 Json _).1, (h.1 Json _).2.1, (h.2.2.1 1 2 none none _).2⟩

/-- C2 counterexample: on the path `info/(market)/(market)` (braces for the
parentheses) with the single parameter `market := "BTC-USD"`, the code
substitutes only the first occurrence and leaves the second placeholder
literal, while the spec's all-occurrences substitution would replace both —
so the outputs differ. -/
theorem path_substitution_not_all_occurrences :
    substitutePathParams "info/\x7bmarket\x7d/\x7bmarket\x7d" [("market", "BTC-USD")]
      = "info/BTC-USD/\x7bmarket\x7d" ∧
    substituteAllSpec "info/\x7bmarket\x7d/\x7bmarket\x7d" [("market", "BTC-USD")]
      = "info/BTC-USD/BTC-USD" ∧
    ("info/BTC-USD/\x7bmarket\x7d" : String) ≠ "info/BTC-USD/BTC-USD" :=
  ⟨rfl, rfl, by decide⟩

/-- C2 (amended): for a path-parameter entry `(k, v)`,
`HttpTransport.request` substitutes only the FIRST occurrence of the
placeholder `(k)` (braces for the parentheses) in the path — at the
minimal match position — with the replacement text JS `String.replace`
computes from `v` (`getSubstitution`, which expands dollar escapes against
that match and is `v` itself whenever `v` contains no dollar), and leaves
a path with no occurrence of the placeholder unchanged, so placeholders
with no corresponding path parameter stay as literal text in the URL. -/
theorem path_substitution_first_occurrence_only :
    (∀ path k v : String,
      splitFirst ("\x7b" ++ k ++ "\x7d").toList path.toList = none →
        substitutePathParams path [(k, v)] = path ∧
        ∀ pre post : List Char,
          path.toList ≠ pre ++ ("\x7b" ++ k ++ "\x7d").toList ++ post) ∧
    (∀ (path k v : String) (pre post : List Char),
      splitFirst ("\x7b" ++ k ++ "\x7d").toList path.toList = some (pre, post) →
        path.toList = pre ++ ("\x7b" ++ k ++ "\x7d").toList ++ post ∧
        (substitutePathParams path [(k, v)]).toList =
          pre ++ getSubstitution ("\x7b" ++ k ++ "\x7d").toList pre post v.toList ++ post ∧
        ∀ pre2 post2 : List Char,
          path.toList = pre2 ++ ("\x7b" ++ k ++ "\x7d").toList ++ post2 →
            pre.length ≤ pre2.length) ∧
    (∀ (path k v : String) (pre post : List Char),
      splitFirst ("\x7b" ++ k ++ "\x7d").toList path.toList = some (pre, post) →
        '$' ∉ v.toList →
        (substitutePathParams path [(k, v)]).toList = pre ++ v.toList ++ post) := by
  refine ⟨?_, ?_, ?_⟩
  · intro path k v hnone
    refine ⟨?_, splitFirst_eq_none hnone⟩
    show jsReplaceFirst path ("\x7b" ++ k ++ "\x7d") v = path
    unfold jsReplaceFirst
    rw [hnone]
  · intro path k v pre post hsome
    obtain ⟨hdec, hmin⟩ := splitFirst_eq_some hsome
    refine ⟨hdec, ?_, hmin⟩
    show (jsReplaceFirst path ("\x7b" ++ k ++ "\x7d") v).toList =
      pre ++ getSubstitution ("\x7b" ++ k ++ "\x7d").toList pre post v.toList ++ post
    unfold jsReplaceFirst
    rw [hsome]
    rfl
  · intro path k v pre post hsome hnd
    have key : (jsReplaceFirst path ("\x7b" ++ k ++ "\x7d") v).toList =
        pre ++ getSubstitution ("\x7b" ++ k ++ "\x7d").toList pre post v.toList ++ post := by
      unfold jsReplaceFirst
      rw [hsome]
      rfl
    show (jsReplaceFirst path ("\x7b" ++ k ++ "\x7d") v).toList = pre ++ v.toList ++ post
    rw [key, getSubstitution_no_dollar _ _ _ _ hnd]

/-- C2 witness: the stats path template at `market := "BTC-USD"` (a
dollar-free value), and a placeholder-free path left unchanged. -/
theorem path_substitution_first_occurrence_only_witness :
    ((substitutePathParams "info/markets/\x7bmarket\x7d/stats" [("market", "BTC-USD")]).toList
      = "info/markets/".toList ++ "BTC-USD".toList ++ "/stats".toList) ∧
    substitutePathParams "info/markets" [("market", "BTC-USD")] = "info/markets" := by
  constructor
  · exact path_substitution_first_occurrence_only.2.2 "info/markets/\x7bmarket\x7d/stats"
      "market" "BTC-USD" "info/markets/".toList "/stats".toList (by rfl) (by decide)
  · exact (path_substitution_first_occurrence_only.1 "info/markets" "market" "BTC-USD"
      (by rfl)).1

/-- C3 counterexample: the candles validator accepts an `OK` envelope
carrying an extra top-level field, which the claim's exact-match contract
(extra fields reject) refuses — Zod's default object mode strips unknown
keys instead of rejecting them. -/
theorem candles_validator_accepts_extra_fields :
    candlesResponseAccepts (Json.obj
      [("status", Json.str "OK"), ("data", Json.arr []), ("extra", Json.null)]) = true ∧
    candlesResponseExact (Json.obj
      [("status", Json.str "OK"), ("data", Json.arr []), ("extra", Json.null)]) = false :=
  ⟨rfl, rfl⟩

/-- C3 (amended): for every endpoint response schema — formalized for the
two the claim cites, `GetCandlesHistoryResponseSchema` and
`GetMarketStatsResponseSchema` — and every JSON value, the validator
accepts the value iff it matches exactly one of the two envelope shapes
(status "OK" with the endpoint's data shape, or status "ERROR" with a code
from the endpoint's code union plus a message string), where MISSING
required fields cause rejection but extra (unknown) fields are stripped
and accepted; on mismatch the validation failure is reported as a value,
not raised. -/
theorem envelope_validator_characterization :
    (∀ v : Json,
      (candlesResponseAccepts v = true ↔ (CandlesOkShape v ∨ CandlesErrorShape v)) ∧
      ¬(CandlesOkShape v ∧ CandlesErrorShape v)) ∧
    (∀ v : Json,
      (statsResponseAccepts v = true ↔ (StatsOkShape v ∨ StatsErrorShape v)) ∧
      ¬(StatsOkShape v ∧ StatsErrorShape v)) :=
  ⟨fun _ => ⟨candlesResponseAccepts_iff, candlesShapes_exclusive⟩,
   fun _ => ⟨statsResponseAccepts_iff, statsShapes_exclusive⟩⟩

/-- C3 witness: a well-formed candles `OK` envelope is accepted via the
characterization, a candles value missing the required `data` field is
rejected, and a stats `ERROR` envelope with a market error code is
accepted. -/
theorem envelope_validator_characterization_witness :
    candlesResponseAccepts (Json.obj [("status", Json.str "OK"), ("data", Json.arr [])])
      = true ∧
    candlesResponseAccepts (Json.obj [("status", Json.str "OK")]) = false ∧
    statsResponseAccepts (Json.obj [("status", Json.str "ERROR"),
      ("error", Json.obj [("code", Json.str "MarketNotFound"),
        ("message", Json.str "no such market")])]) = true := by
  refine ⟨?_, ?_, ?_⟩
  · exact (envelope_validator_characterization.1 _).1.mpr
      (Or.inl ⟨rfl, [], rfl, by simp⟩)
  · by_contra h
    have hacc := (envelope_validator_characterization.1
      (Json.obj [("status", Json.str "OK")])).1.mp (by simpa using h)
    rcases hacc with hok | herr
    · obtain ⟨-, l, hl, -⟩ := hok
      simp [Json.get, fieldLookup] at hl
    · obtain ⟨hst, -⟩ := herr
      simp [Json.get, fieldLookup] at hst
  · exact (envelope_validator_characterization.2 _).1.mpr
      (Or.inr ⟨rfl, Json.obj [("code", Json.str "MarketNotFound"),
        ("message", Json.str "no such market")], rfl,
        ⟨"MarketNotFound", rfl, Or.inr (by simp [marketAssetAccountErrorCodes])⟩,
        "no such market", rfl⟩)

/-- C4: `funding` raises `InvalidInputError` before any transport call for
every inverted or empty time range (`startTime ≥ endTime`) and for every
supplied limit outside `[1, 10000]`; `openInterest` likewise for
`startTime ≥ endTime`, for every supplied limit outside `[1, 300]`, and
for every interval other than "P1H"/"P1D". -/
theorem range_validation_blocks_transport :
    (∀ (market : String) (startTime endTime : Int) (cursor limit : Option Int)
        (t : TransportRequest → FundingResponse),
      (endTime ≤ startTime ∨ ∃ l, limit = some l ∧ (l < 1 ∨ 10000 < l)) →
        (∃ msg, (funding market startTime endTime cursor limit t).1 =
          .error (.invalidInput msg)) ∧
        (funding market startTime endTime cursor limit t).2 = []) ∧
    (∀ (market interval : String) (startTime endTime : Int) (limit : Option Int)
        (α : Type) (t : TransportRequest → ApiResponse α),
      (endTime ≤ startTime ∨ (∃ l, limit = some l ∧ (l < 1 ∨ 300 < l)) ∨
          (interval ≠ "P1H" ∧ interval ≠ "P1D")) →
        (∃ msg, (openInterest market interval startTime endTime limit t).1 =
          .error (.invalidInput msg)) ∧
        (openInterest market interval startTime endTime limit t).2 = []) := by
  constructor
  · intro market startTime endTime cursor limit t hbad
    unfold funding
    split_ifs with h1 h2 h3 h4 h5
    · exact ⟨⟨_, rfl⟩, rfl⟩
    · exact ⟨⟨_, rfl⟩, rfl⟩
    · exact ⟨⟨_, rfl⟩, rfl⟩
    · exact ⟨⟨_, rfl⟩, rfl⟩
    · exact ⟨⟨_, rfl⟩, rfl⟩
    · exfalso
      rcases hbad with hrange | ⟨l, rfl, hl⟩
      · exact h4 (by simpa using hrange)
      · apply h5
        simp only [limitOutOfRange, Bool.or_eq_true, decide_eq_true_eq]
        omega
  · intro market interval startTime endTime limit α t hbad
    unfold openInterest
    split_ifs with h1 h2 h3 h4 h5 h6
    · exact ⟨⟨_, rfl⟩, rfl⟩
    · exact ⟨⟨_, rfl⟩, rfl⟩
    · exact ⟨⟨_, rfl⟩, rfl⟩
    · exact ⟨⟨_, rfl⟩, rfl⟩
    · exact ⟨⟨_, rfl⟩, rfl⟩
    · exact ⟨⟨_, rfl⟩, rfl⟩
    · exfalso
      rcases hbad with hrange | ⟨l, rfl, hl⟩ | ⟨hp1h, hp1d⟩
      · exact h5 (by simpa using hrange)
      · apply h6
        simp only [limitOutOfRange, Bool.or_eq_true, decide_eq_true_eq]
        omega
      · apply h2
        simp [hp1h, hp1d]

/-- C4 witness: `funding` with an inverted range `(5, 3)` and
`openInterest` with `limit := 301`. -/
theorem range_validation_blocks_transport_witness :
    ((∃ msg, (funding "BTC-USD" 5 3 none none
        (fun _ => FundingResponse.other Json.null)).1 = .error (.invalidInput msg)) ∧
      (funding "BTC-USD" 5 3 none none (fun _ => FundingResponse.other Json.null)).2 = []) ∧
    ((∃ msg, (openInterest "BTC-USD" "P1D" 1 2 (some 301)
        (fun _ => ApiResponse.ok Json.null)).1 = .error (.invalidInput msg)) ∧
      (openInterest "BTC-USD" "P1D" 1 2 (some 301)
        (fun _ => ApiResponse.ok Json.null)).2 = []) := by
  constructor
  · exact range_validation_blocks_transport.1 "BTC-USD" 5 3 none none _
      (Or.inl (by decide))
  · exact range_validation_blocks_transport.2 "BTC-USD" "P1D" 1 2 (some 301) Json _
      (Or.inr (Or.inl ⟨301, rfl, Or.inr (by decide)⟩))

/-- C5: the funding method's envelope unwrapping — `OK` with a pagination
block returns it verbatim, `OK` without one synthesizes
`(cursor 0, count data.length)` (braces elided), `ERROR` raises an error
embedding the server's code and message, and any other shape raises the
generic decoding error carrying the raw payload; the funding method (at
any arguments passing validation, here "BTC-USD", 1, 2) returns exactly
this unwrapping of the transport's response. -/
theorem funding_unwrap_characterization :
    (∀ (d : List FundingRate) (p : Pagination),
      handleFundingEnvelope (.ok d (some p)) = .ok { data := d, pagination := p }) ∧
    (∀ d : List FundingRate,
      handleFundingEnvelope (.ok d none) =
        .ok { data := d, pagination := { cursor := 0, count := Int.ofNat d.length } }) ∧
    (∀ c m : String, handleFundingEnvelope (.err c m) = .error (.apiError c m)) ∧
    (∀ raw : Json, handleFundingEnvelope (.other raw) = .error (.unexpected raw)) ∧
    (∀ resp : FundingResponse,
      (funding "BTC-USD" 1 2 none none (fun _ => resp)).1 = handleFundingEnvelope resp) :=
  ⟨fun _ _ => rfl, fun _ => rfl, fun _ _ => rfl, fun _ => rfl, fun _ => rfl⟩

/-- C9: for every query-parameter map (JS `Record`s have pairwise-distinct
keys, the `Nodup` hypothesis), the serialized query string of
`HttpTransport.request` is exactly the per-entry expansion in insertion
order: each scalar contributes a single `key=value` pair, each array one
pair per element preserving the array's order; and the pairs carrying a
given key are exactly that key's expansion. -/
theorem query_serialization_pairs :
    ∀ params : List (String × QueryValue), (params.map Prod.fst).Nodup →
      serializeQuery params = params.flatMap expandQueryEntry ∧
      (∀ kv ∈ params,
        (serializeQuery params).filter (fun p => p.1 == kv.1) = expandQueryEntry kv) ∧
      (∀ (st : HttpTransportState) (method path : String)
          (pathParams : List (String × String)) (signal : Option Unit) (f : FetchResult),
        (st.requestRun method path params pathParams signal f).queryPairs
          = serializeQuery params) := by
  intro params hnd
  have hempty : ∀ kv ∈ params, ∀ p ∈ ([] : List (String × String)), p.1 ≠ kv.1 := by
    intro kv _ p hp
    simp at hp
  refine ⟨by simpa using serializeQuery_go params [] hempty hnd, ?_, fun _ _ _ _ _ _ => rfl⟩
  intro kv hkv
  rw [show serializeQuery params = params.flatMap expandQueryEntry from
    by simpa using serializeQuery_go params [] hempty hnd]
  exact flatMap_filter_key params kv hnd hkv

/-- C9 witness: a map with a scalar string, an array, and a numeric scalar. -/
theorem query_serialization_pairs_witness :
    serializeQuery [("a", QueryValue.str "1"), ("m", QueryValue.arr ["X", "Y"]),
        ("b", QueryValue.num 2)]
      = [("a", "1"), ("m", "X"), ("m", "Y"), ("b", "2")] ∧
    (serializeQuery [("a", QueryValue.str "1"), ("m", QueryValue.arr ["X", "Y"]),
        ("b", QueryValue.num 2)]).filter (fun p => p.1 == "m")
      = [("m", "X"), ("m", "Y")] := by
  have h := query_serialization_pairs
    [("a", QueryValue.str "1"), ("m", QueryValue.arr ["X", "Y"]), ("b", QueryValue.num 2)]
    (by decide)
  refine ⟨h.1.trans rfl, ?_⟩
  have h2 := h.2.1 ("m", QueryValue.arr ["X", "Y"]) (by simp)
  exact h2.trans rfl

/-- C6: classification of every HTTP response `request` receives.  A
non-2xx status raises `HttpRequestError` carrying the status and the
best-effort body text (`none` models a swallowed body-read failure — the
error is still this one, the read failure is not fatal); a 2xx status
whose content type does not contain "application/json" raises
`HttpRequestError` whose detail string names the observed content type; a
2xx status with a JSON content type resolves with the parsed body,
unvalidated.  These are the only transport-error cases for a received
response. -/
theorem response_classification :
    ∀ (st : HttpTransportState) (method path : String)
      (params : List (String × QueryValue)) (pathParams : List (String × String))
      (signal : Option Unit) (r : HttpResponse),
      (¬(200 ≤ r.status ∧ r.status ≤ 299) →
        (st.requestRun method path params pathParams signal (.ok r)).result
          = .error (.http (mkHttpRequestError r.status r.bodyTextRead))) ∧
      ((200 ≤ r.status ∧ r.status ≤ 299) → contentTypeIsJson r.contentType = false →
        (st.requestRun method path params pathParams signal (.ok r)).result
          = .error (.http (mkHttpRequestError r.status
              (some ("Expected JSON response, got " ++ renderContentType r.contentType))))) ∧
      ((200 ≤ r.status ∧ r.status ≤ 299) → contentTypeIsJson r.contentType = true →
        (st.requestRun method path params pathParams signal (.ok r)).result
          = .ok r.body) := by
  intro st method path params pathParams signal r
  refine ⟨?_, ?_, ?_⟩
  · intro hbad
    have hok : responseOk r = false := by
      simp only [responseOk, Bool.and_eq_false_iff, decide_eq_false_iff_not]
      omega
    simp [HttpTransportState.requestRun, hok]
  · intro hgood hct
    have hok : responseOk r = true := by
      simp only [responseOk, Bool.and_eq_true, decide_eq_true_eq]
      omega
    simp [HttpTransportState.requestRun, hok, hct]
  · intro hgood hct
    have hok : responseOk r = true := by
      simp only [responseOk, Bool.and_eq_true, decide_eq_true_eq]
      omega
    simp [HttpTransportState.requestRun, hok, hct]

/-- C6 witness: a 404 with body text, a 200 HTML response, and a 200 JSON
response, classified through the theorem. -/
theorem response_classification_witness :
    ((HttpTransportState.create none).requestRun "GET" "info/markets" [] [] none
        (.ok { status := 404, contentType := none, bodyTextRead := some "not found",
               body := Json.null })).result
      = .error (.http (mkHttpRequestError 404 (some "not found"))) ∧
    ((HttpTransportState.create none).requestRun "GET" "info/markets" [] [] none
        (.ok { status := 200, contentType := some "text/html", bodyTextRead := none,
               body := Json.null })).result
      = .error (.http (mkHttpRequestError 200
          (some "Expected JSON response, got text/html"))) ∧
    ((HttpTransportState.create none).requestRun "GET" "info/markets" [] [] none
        (.ok { status := 200, contentType := some "application/json; charset=utf-8",
               bodyTextRead := some "[]", body := Json.arr [] })).result
      = .ok (Json.arr []) := by
  refine ⟨?_, ?_, ?_⟩
  · exact (response_classification (HttpTransportState.create none) "GET" "info/markets"
      [] [] none _).1 (by decide)
  · exact (response_classification (HttpTransportState.create none) "GET" "info/markets"
      [] [] none _).2.1 (by decide) (by rfl)
  · exact (response_classification (HttpTransportState.create none) "GET" "info/markets"
      [] [] none _).2.2 (by decide) (by rfl)

/-- C7: the signal handed to `fetch` is `signal || controller?.signal` — a
caller-supplied signal is passed through unchanged whatever the configured
timeout is (the timeout-driven signal is not merged, so the timeout cannot
abort such a call); with no caller signal and an active timeout, the
timer-driven controller's signal is used. -/
theorem effective_signal_selection :
    ∀ (st : HttpTransportState) (method path : String)
      (params : List (String × QueryValue)) (pathParams : List (String × String))
      (f : FetchResult),
      ((st.requestRun method path params pathParams (some ()) f).fetchSignal
          = some .caller) ∧
      (timeoutActive st.timeout = true →
        (st.requestRun method path params pathParams none f).fetchSignal = some .timer) := by
  intro st method path params pathParams f
  constructor
  · rfl
  · intro htimer
    simp [HttpTransportState.requestRun, htimer]

/-- C7 witness: the default transport (10000 ms timeout) with and without
a caller signal. -/
theorem effective_signal_selection_witness :
    ((HttpTransportState.create none).requestRun "GET" "info/markets" [] [] (some ())
        .fail).fetchSignal = some .caller ∧
    ((HttpTransportState.create none).requestRun "GET" "info/markets" [] [] none
        .fail).fetchSignal = some .timer := by
  exact ⟨(effective_signal_selection (HttpTransportState.create none) "GET" "info/markets"
      [] [] .fail).1,
    (effective_signal_selection (HttpTransportState.create none) "GET" "info/markets"
      [] [] .fail).2 (by rfl)⟩

/-- C8: the timeout timer is cleared exactly when it was started, on every
exit path — the fetch outcome (success, HTTP error, non-JSON error, or
network/abort rejection) is universally quantified, and the `finally`
clause of the source runs `clearTimeout` in all of them. -/
theorem timer_cleared_on_every_path :
    ∀ (st : HttpTransportState) (method path : String)
      (params : List (String × QueryValue)) (pathParams : List (String × String))
      (signal : Option Unit) (f : FetchResult),
      ((st.requestRun method path params pathParams signal f).timerCleared
        = (st.requestRun method path params pathParams signal f).timerStarted) ∧
      (timeoutActive st.timeout = true →
        (st.requestRun method path params pathParams signal f).timerStarted = true ∧
        (st.requestRun method path params pathParams signal f).timerCleared = true) := by
  intro st method path params pathParams signal f
  refine ⟨rfl, fun htimer => ⟨htimer, htimer⟩⟩

/-- C8 witness: the default transport, with the two fetch outcomes. -/
theorem timer_cleared_on_every_path_witness :
    ((HttpTransportState.create none).requestRun "GET" "info/markets" [] [] none
        .fail).timerCleared = true ∧
    ((HttpTransportState.create none).requestRun "GET" "info/markets" [] [] none
        (.ok { status := 500, contentType := none, bodyTextRead := none,
               body := Json.null })).timerCleared = true := by
  exact ⟨((timer_cleared_on_every_path (HttpTransportState.create none) "GET"
      "info/markets" [] [] none .fail).2 (by rfl)).2,
    ((timer_cleared_on_every_path (HttpTransportState.create none) "GET"
      "info/markets" [] [] none _).2 (by rfl)).2⟩

/-- C10: `timeout: 0` is stored verbatim (`??` keeps non-nullish values)
and `0` is falsy, so `request` creates no abort controller, starts no
timer, and passes no signal to `fetch` — the call is never aborted by a
timeout.  The last conjunct exhibits the divergence the claim's
parenthetical rests on: an explicit `timeout: null` is replaced by the
10000 default by `options?.timeout ?? 10_000`, even though the option's
own doc comment says "Set to `null` to disable" — so `null` does NOT
disable the timeout, while `0` does. -/
theorem zero_timeout_disables :
    (HttpTransportState.create (some { timeout := some (some 0) })).timeout = some 0 ∧
    (∀ (method path : String) (params : List (String × QueryValue))
        (pathParams : List (String × String)) (f : FetchResult),
      ((HttpTransportState.create (some { timeout := some (some 0) })).requestRun
          method path params pathParams none f).timerStarted = false ∧
      ((HttpTransportState.create (some { timeout := some (some 0) })).requestRun
          method path params pathParams none f).timerCleared = false ∧
      ((HttpTransportState.create (some { timeout := some (some 0) })).requestRun
          method path params pathParams none f).fetchSignal = none) ∧
    (HttpTransportState.create (some { timeout := some none })).timeout = some 10000 :=
  ⟨rfl, fun _ _ _ _ _ => ⟨rfl, rfl, rfl⟩, rfl⟩

end Extended
